import Mathlib

/-!
Verification of the 3D segment-intersection routine in `src/main.cpp`
(`Vector3D`, `Segment3D`, `Intersect`).

Doubles are modelled as real numbers extended with an explicit NaN element
(type `D`).  Finite double values are idealized as exact reals; NaN
propagation through arithmetic and the IEEE rule that every ordered
comparison involving NaN is false are modelled explicitly, because the
algorithm relies on them (`0/0` inside the parallel branch, `std::max` /
`std::min` with a NaN argument).  Infinities and signed zeros are not
modelled: inside `Intersect`, whenever a divisor is zero the corresponding
dividend is forced to zero as well (the divisors are `u.length()` and
`u.dot_product(u)`, zero only when `u` is the zero vector, which zeroes the
numerators too, and the skew-branch divisors, nonzero on that branch), so
`0/0 -> NaN` is the only division-by-zero path the code can exercise on
finite inputs; `D.div` maps the remaining unreachable nonzero/zero case to
NaN as well.
-/

noncomputable section

/-- The tolerance from the source: `constexpr double eps = 10e-6;`. -/
def eps : ℝ := 10e-6

/-- A double value: a finite real, or NaN. -/
inductive D where
  | nan : D
  | val : ℝ → D
  deriving DecidableEq

namespace D

/-- Addition on doubles; NaN propagates. -/
def add : D → D → D
  | val a, val b => val (a + b)
  | _, _ => nan

/-- Subtraction on doubles; NaN propagates. -/
def sub : D → D → D
  | val a, val b => val (a - b)
  | _, _ => nan

/-- Multiplication on doubles; NaN propagates. -/
def mul : D → D → D
  | val a, val b => val (a * b)
  | _, _ => nan

/-- Negation on doubles; NaN propagates. -/
def neg : D → D
  | val a => val (-a)
  | nan => nan

/-- Division on doubles; NaN propagates, and a zero divisor yields NaN
(`0/0` is the only zero-divisor case `Intersect` can reach on finite
inputs, see the file comment). -/
def div : D → D → D
  | val a, val b => if b = 0 then nan else val (a / b)
  | _, _ => nan

instance : Add D := ⟨add⟩
instance : Sub D := ⟨sub⟩
instance : Mul D := ⟨mul⟩
instance : Neg D := ⟨neg⟩
instance : Div D := ⟨div⟩

/-- IEEE `<` : false whenever either operand is NaN. -/
def lt : D → D → Bool
  | val a, val b => decide (a < b)
  | _, _ => false

/-- IEEE `<=` : false whenever either operand is NaN. -/
def le : D → D → Bool
  | val a, val b => decide (a ≤ b)
  | _, _ => false

/-- C library `fabs`; `fabs(NaN)` is NaN. -/
def fabs : D → D
  | val a => val |a|
  | nan => nan

/-- C library `sqrt`; NaN on NaN and on negative arguments. -/
def sqrt : D → D
  | val a => if a < 0 then nan else val (Real.sqrt a)
  | nan => nan

/-- C++ `std::isnan`. -/
def isNaN : D → Bool
  | nan => true
  | val _ => false

end D

/-- Real-side `std::round` (round half away from zero). -/
def roundAwayR (a : ℝ) : ℝ :=
  if a < 0 then -(⌊-a + 1/2⌋ : ℤ) else ((⌊a + 1/2⌋ : ℤ) : ℝ)

/-- C library `round` on doubles; NaN propagates. -/
def D.roundAway : D → D
  | D.val a => D.val (roundAwayR a)
  | D.nan => D.nan

/-- C++ `std::max` on doubles: `(a < b) ? b : a`. -/
def maxD (a b : D) : D := if D.lt a b then b else a

/-- C++ `std::min` on doubles: `(b < a) ? b : a`. -/
def minD (a b : D) : D := if D.lt b a then b else a

/-- The `Vector3D` class: three double coordinates X, Y, Z. -/
structure Vector3D where
  X : D
  Y : D
  Z : D
  deriving DecidableEq

namespace Vector3D

/-- `double dot_product(const Vector3D& v) const { return v.X*X + v.Y*Y + v.Z*Z; }` -/
def dot_product (this v : Vector3D) : D :=
  v.X * this.X + v.Y * this.Y + v.Z * this.Z

/-- `Vector3D cross_product(const Vector3D& v) const`:
`{ Y*v.Z - Z*v.Y, -(X*v.Z - Z*v.X), X*v.Y - Y*v.X }`. -/
def cross_product (this v : Vector3D) : Vector3D :=
  ⟨this.Y * v.Z - this.Z * v.Y, -(this.X * v.Z - this.Z * v.X),
    this.X * v.Y - this.Y * v.X⟩

/-- `operator-`: componentwise subtraction. -/
instance : Sub Vector3D := ⟨fun a v => ⟨a.X - v.X, a.Y - v.Y, a.Z - v.Z⟩⟩

/-- `operator+`: componentwise addition. -/
instance : Add Vector3D := ⟨fun a v => ⟨a.X + v.X, a.Y + v.Y, a.Z + v.Z⟩⟩

/-- `operator*(double factor)`: componentwise scaling. -/
instance : HMul Vector3D D Vector3D :=
  ⟨fun a f => ⟨a.X * f, a.Y * f, a.Z * f⟩⟩

/-- `operator==`: `((v.X - X) <= eps) && ((v.Y - Y) <= eps) && ((v.Z - Z) <= eps)`.
One-directional comparison, no absolute value. -/
def beq (this v : Vector3D) : Bool :=
  D.le (v.X - this.X) (D.val eps) && D.le (v.Y - this.Y) (D.val eps) &&
    D.le (v.Z - this.Z) (D.val eps)

/-- `double length() const { return sqrt(X*X + Y*Y + Z*Z); }` -/
def length (this : Vector3D) : D :=
  D.sqrt (this.X * this.X + this.Y * this.Y + this.Z * this.Z)

/-- `bool is_nan() const`: true iff some coordinate is NaN. -/
def is_nan (this : Vector3D) : Bool :=
  this.X.isNaN || this.Y.isNaN || this.Z.isNaN

end Vector3D

/-- The `Segment3D` class: start and end points (`end` is a Lean keyword,
so the field is named `end_`). -/
structure Segment3D where
  start : Vector3D
  end_ : Vector3D

/-- `double round_to_n(double value, int n)`:
`factor = pow(10.0, n); return round(value * factor) / factor;`. -/
def round_to_n (value : D) (n : ℕ) : D :=
  let factor : ℝ := 10 ^ n
  (value * D.val factor).roundAway / D.val factor

/-- The all-NaN sentinel `Vector3D(NAN, NAN, NAN)` meaning `no intersection`. -/
def nanVec : Vector3D := ⟨D.nan, D.nan, D.nan⟩

/-- `Vector3D Intersect(Segment3D s1, Segment3D s2)`, transcribed from
`src/main.cpp` lines 106-181. -/
def Intersect (s1 s2 : Segment3D) : Vector3D :=
  let P1 := s1.start
  let P2 := s1.end_
  let Q1 := s2.start
  let Q2 := s2.end_
  let u := P2 - P1
  let v := Q2 - Q1
  let w0 := P1 - Q1
  let a := u.dot_product u
  let b := v.dot_product u
  let c := v.dot_product v
  let d := u.dot_product w0
  let e := v.dot_product w0
  if D.lt (D.fabs (v.cross_product u).length) (D.val eps) then
    -- parallel branch; the inner `d` shadows the outer one as in the source
    let d := (u.cross_product w0).length / u.length
    if D.lt (D.val 0) d then
      nanVec
    else
      let t0 := ((Q1 - P1).dot_product u) / (u.dot_product u)
      let t1 := ((Q2 - P1).dot_product u) / (u.dot_product u)
      let p := if D.lt t1 t0 then (t1, t0) else (t0, t1)
      let t_start := maxD (D.val 0) p.1
      let t_end := minD (D.val 1) p.2
      if D.lt t_end t_start then
        nanVec
      else
        P1 + u * t_start
  else
    let denominator := a * c - b * b
    let t := round_to_n ((-(d * c) + b * e) / denominator) 6
    let s := (e + b * t) / c
    let Pt := P1 + u * t
    let Qs := Q1 + v * s
    if D.lt (D.val eps) (Pt - Qs).length then
      nanVec
    else if D.lt (D.val 1) t || D.lt t (D.val 0) ||
        D.lt (D.val 1) s || D.lt s (D.val 0) then
      nanVec
    else
      Pt

/-! ## Spec-side real vectors

`RV` is the mathematical counterpart of a finite `Vector3D`: a plain real
triple with textbook vector algebra.  `toVec` injects it into the double
model; lemmas below push every `Vector3D` operation through `toVec`,
reducing computations on finite vectors to real arithmetic. -/

/-- A real 3-vector (spec side, exact arithmetic). -/
structure RV where
  x : ℝ
  y : ℝ
  z : ℝ

namespace RV

/-- Real dot product. -/
def dot (a b : RV) : ℝ := a.x * b.x + a.y * b.y + a.z * b.z

/-- Real cross product `a × b`. -/
def cross (a b : RV) : RV :=
  ⟨a.y * b.z - a.z * b.y, -(a.x * b.z - a.z * b.x), a.x * b.y - a.y * b.x⟩

instance : Sub RV := ⟨fun a b => ⟨a.x - b.x, a.y - b.y, a.z - b.z⟩⟩
instance : Add RV := ⟨fun a b => ⟨a.x + b.x, a.y + b.y, a.z + b.z⟩⟩
instance : HMul RV ℝ RV := ⟨fun a f => ⟨a.x * f, a.y * f, a.z * f⟩⟩
instance : Zero RV := ⟨⟨0, 0, 0⟩⟩

/-- Squared Euclidean norm. -/
def normSq (a : RV) : ℝ := a.x * a.x + a.y * a.y + a.z * a.z

/-- Euclidean norm. -/
def norm (a : RV) : ℝ := Real.sqrt a.normSq

end RV

/-- Injection of a real 3-vector into the double model. -/
def toVec (a : RV) : Vector3D := ⟨D.val a.x, D.val a.y, D.val a.z⟩

/-- Real-side `round_to_n`. -/
def round_to_nR (value : ℝ) (n : ℕ) : ℝ :=
  roundAwayR (value * 10 ^ n) / 10 ^ n

/-- Spec-side description of the skew (non-parallel) branch, transcribed
from the wording of the specification (section 4.2, skew/general branch):
normal-equation parameters with the deliberate 6-digit rounding of `t`,
gap test against `eps`, and the `[0,1]` range tests on `t` and `s`. -/
def specSkew (p1 p2 q1 q2 : RV) : Vector3D :=
  let u := p2 - p1
  let v := q2 - q1
  let w0 := p1 - q1
  let a := u.dot u
  let b := v.dot u
  let c := v.dot v
  let d := u.dot w0
  let e := v.dot w0
  let t := round_to_nR ((-(d * c) + b * e) / (a * c - b * b)) 6
  let s := (e + b * t) / c
  let Pt := p1 + u * t
  let Qs := q1 + v * s
  if eps < RV.norm (Pt - Qs) ∨ 1 < t ∨ t < 0 ∨ 1 < s ∨ s < 0 then nanVec
  else toVec Pt

/-- Spec-side description of the collinear-overlap branch, transcribed from
the wording of the specification (section 4.2, parallel branch, step 2):
project both endpoints of segment2 onto segment1, order, clip to `[0,1]`,
empty overlap means no intersection, otherwise the point at the first
overlap parameter. -/
def specCollinear (p1 p2 q1 q2 : RV) : Vector3D :=
  let u := p2 - p1
  let t0 := (q1 - p1).dot u / u.dot u
  let t1 := (q2 - p1).dot u / u.dot u
  let t_start := max 0 (min t0 t1)
  let t_end := min 1 (max t0 t1)
  if t_start > t_end then nanVec
  else toVec (p1 + u * t_start)

/-! ## Theorems: real-vector algebra -/

namespace RV

@[simp] theorem zero_x : (0 : RV).x = 0 := rfl

@[simp] theorem zero_y : (0 : RV).y = 0 := rfl

@[simp] theorem zero_z : (0 : RV).z = 0 := rfl

@[simp] theorem sub_x (a b : RV) : (a - b).x = a.x - b.x := rfl

@[simp] theorem sub_y (a b : RV) : (a - b).y = a.y - b.y := rfl

@[simp] theorem sub_z (a b : RV) : (a - b).z = a.z - b.z := rfl

@[simp] theorem add_x (a b : RV) : (a + b).x = a.x + b.x := rfl

@[simp] theorem add_y (a b : RV) : (a + b).y = a.y + b.y := rfl

@[simp] theorem add_z (a b : RV) : (a + b).z = a.z + b.z := rfl

@[simp] theorem smul_x (a : RV) (f : ℝ) : (a * f).x = a.x * f := rfl

@[simp] theorem smul_y (a : RV) (f : ℝ) : (a * f).y = a.y * f := rfl

@[simp] theorem smul_z (a : RV) (f : ℝ) : (a * f).z = a.z * f := rfl

theorem ext_rv {a b : RV} (hx : a.x = b.x) (hy : a.y = b.y) (hz : a.z = b.z) :
    a = b := by
  cases a; cases b
  simp only [RV.mk.injEq]
  exact ⟨hx, hy, hz⟩

theorem dot_comm (a b : RV) : a.dot b = b.dot a := by
  simp only [dot]; ring

@[simp] theorem sub_self_rv (a : RV) : a - a = 0 :=
  ext_rv (by simp) (by simp) (by simp)

@[simp] theorem add_zero_rv (a : RV) : a + 0 = a :=
  ext_rv (by simp) (by simp) (by simp)

@[simp] theorem smul_zero_rv (a : RV) : a * (0 : ℝ) = 0 :=
  ext_rv (by simp) (by simp) (by simp)

@[simp] theorem cross_zero_right (a : RV) : a.cross 0 = 0 := by
  refine ext_rv ?_ ?_ ?_ <;> simp [cross]

@[simp] theorem cross_zero_left (a : RV) : RV.cross 0 a = 0 := by
  refine ext_rv ?_ ?_ ?_ <;> simp [cross]

@[simp] theorem dot_zero_left (a : RV) : RV.dot 0 a = 0 := by
  simp [dot]

@[simp] theorem dot_zero_right (a : RV) : a.dot 0 = 0 := by
  simp [dot]

@[simp] theorem normSq_zero : (0 : RV).normSq = 0 := by
  simp [normSq]

@[simp] theorem norm_zero : (0 : RV).norm = 0 := by
  simp [norm]

theorem normSq_nonneg (a : RV) : 0 ≤ a.normSq := by
  have hx : 0 ≤ a.x * a.x := mul_self_nonneg _
  have hy : 0 ≤ a.y * a.y := mul_self_nonneg _
  have hz : 0 ≤ a.z * a.z := mul_self_nonneg _
  unfold normSq; linarith

theorem norm_nonneg (a : RV) : 0 ≤ a.norm := Real.sqrt_nonneg _

theorem normSq_eq_zero_iff (a : RV) : a.normSq = 0 ↔ a = 0 := by
  constructor
  · intro h
    have hx : 0 ≤ a.x * a.x := mul_self_nonneg _
    have hy : 0 ≤ a.y * a.y := mul_self_nonneg _
    have hz : 0 ≤ a.z * a.z := mul_self_nonneg _
    unfold normSq at h
    have hx0 : a.x * a.x = 0 := by linarith
    have hy0 : a.y * a.y = 0 := by linarith
    have hz0 : a.z * a.z = 0 := by linarith
    simp only [mul_self_eq_zero] at hx0 hy0 hz0
    exact ext_rv (by simpa using hx0) (by simpa using hy0) (by simpa using hz0)
  · rintro rfl
    show (0 : ℝ) * 0 + 0 * 0 + 0 * 0 = 0
    ring

theorem norm_eq_zero_iff (a : RV) : a.norm = 0 ↔ a = 0 := by
  rw [norm, Real.sqrt_eq_zero (normSq_nonneg a)]
  exact normSq_eq_zero_iff a

theorem norm_pos_of_ne_zero {a : RV} (h : a ≠ 0) : 0 < a.norm := by
  rcases lt_or_eq_of_le (norm_nonneg a) with h' | h'
  · exact h'
  · exact absurd ((norm_eq_zero_iff a).mp h'.symm) h

theorem normSq_pos_of_ne_zero {a : RV} (h : a ≠ 0) : 0 < a.normSq := by
  rcases lt_or_eq_of_le (normSq_nonneg a) with h' | h'
  · exact h'
  · exact absurd ((normSq_eq_zero_iff a).mp h'.symm) h

theorem sq_norm (a : RV) : a.norm * a.norm = a.normSq :=
  Real.mul_self_sqrt (normSq_nonneg a)

theorem dot_self_eq_normSq (a : RV) : a.dot a = a.normSq := rfl

theorem dot_self_pos {a : RV} (h : a ≠ 0) : 0 < a.dot a :=
  normSq_pos_of_ne_zero h

/-- The Lagrange identity specialized to 3D:
`(u·u)(v·v) - (v·u)² = |v × u|²`. -/
theorem lagrange (u v : RV) :
    u.dot u * (v.dot v) - v.dot u * (v.dot u) = (v.cross u).normSq := by
  cases u; cases v
  simp only [dot, cross, normSq]
  ring

end RV

/-! ## Theorems: evaluation lemmas for `D` and `Vector3D` on finite values -/

theorem eps_pos : 0 < eps := by norm_num [eps]

theorem toVec_inj {a b : RV} (h : toVec a = toVec b) : a = b := by
  cases a; cases b
  simp only [toVec, Vector3D.mk.injEq, D.val.injEq] at h
  exact RV.ext_rv h.1 h.2.1 h.2.2

@[simp] theorem D.add_val (a b : ℝ) : D.val a + D.val b = D.val (a + b) := rfl

@[simp] theorem D.sub_val (a b : ℝ) : D.val a - D.val b = D.val (a - b) := rfl

@[simp] theorem D.mul_val (a b : ℝ) : D.val a * D.val b = D.val (a * b) := rfl

@[simp] theorem D.neg_val (a : ℝ) : -(D.val a) = D.val (-a) := rfl

@[simp] theorem D.div_val (a b : ℝ) :
    D.val a / D.val b = if b = 0 then D.nan else D.val (a / b) := rfl

@[simp] theorem D.lt_val (a b : ℝ) : D.lt (D.val a) (D.val b) = decide (a < b) := rfl

@[simp] theorem D.le_val (a b : ℝ) : D.le (D.val a) (D.val b) = decide (a ≤ b) := rfl

@[simp] theorem D.lt_nan_left (b : D) : D.lt D.nan b = false := rfl

@[simp] theorem D.lt_nan_right (a : D) : D.lt a D.nan = false := by
  cases a <;> rfl

@[simp] theorem D.le_nan_left (b : D) : D.le D.nan b = false := rfl

@[simp] theorem D.le_nan_right (a : D) : D.le a D.nan = false := by
  cases a <;> rfl

@[simp] theorem D.fabs_val (a : ℝ) : D.fabs (D.val a) = D.val |a| := rfl

@[simp] theorem D.sqrt_val (a : ℝ) :
    D.sqrt (D.val a) = if a < 0 then D.nan else D.val (Real.sqrt a) := rfl

@[simp] theorem D.isNaN_val (a : ℝ) : D.isNaN (D.val a) = false := rfl

@[simp] theorem D.isNaN_nan : D.isNaN D.nan = true := rfl

@[simp] theorem D.roundAway_val (a : ℝ) :
    D.roundAway (D.val a) = D.val (roundAwayR a) := rfl

@[simp] theorem round_to_n_val (x : ℝ) (n : ℕ) :
    round_to_n (D.val x) n = D.val (round_to_nR x n) := by
  simp only [round_to_n, round_to_nR, D.mul_val, D.roundAway_val, D.div_val]
  rw [if_neg (by positivity)]

@[simp] theorem maxD_val_nan (a : ℝ) : maxD (D.val a) D.nan = D.val a := rfl

@[simp] theorem minD_val_nan (a : ℝ) : minD (D.val a) D.nan = D.val a := rfl

@[simp] theorem maxD_val_val (a b : ℝ) :
    maxD (D.val a) (D.val b) = D.val (max a b) := by
  simp only [maxD, D.lt_val, decide_eq_true_eq]
  split
  · next h => simp [max_eq_right (le_of_lt h)]
  · next h => simp [max_eq_left (le_of_not_lt h)]

@[simp] theorem minD_val_val (a b : ℝ) :
    minD (D.val a) (D.val b) = D.val (min a b) := by
  simp only [minD, D.lt_val, decide_eq_true_eq]
  split
  · next h => simp [min_eq_right (le_of_lt h)]
  · next h => simp [min_eq_left (le_of_not_lt h)]

@[simp] theorem toVec_sub (a b : RV) : toVec a - toVec b = toVec (a - b) := rfl

@[simp] theorem toVec_add (a b : RV) : toVec a + toVec b = toVec (a + b) := rfl

@[simp] theorem toVec_smul (a : RV) (f : ℝ) :
    toVec a * D.val f = toVec (a * f) := rfl

@[simp] theorem toVec_dot (a b : RV) :
    Vector3D.dot_product (toVec a) (toVec b) = D.val (b.dot a) := rfl

@[simp] theorem toVec_cross (a b : RV) :
    Vector3D.cross_product (toVec a) (toVec b) = toVec (a.cross b) := rfl

@[simp] theorem toVec_length (a : RV) :
    Vector3D.length (toVec a) = D.val a.norm := by
  simp only [Vector3D.length, toVec, D.mul_val, D.add_val, D.sqrt_val]
  split
  · next h => exact absurd h (not_lt.mpr (RV.normSq_nonneg a))
  · rfl

@[simp] theorem toVec_is_nan (a : RV) : Vector3D.is_nan (toVec a) = false := rfl

@[simp] theorem nanVec_is_nan : Vector3D.is_nan nanVec = true := rfl

theorem toVec_ne_nanVec (a : RV) : toVec a ≠ nanVec := by
  simp only [toVec, nanVec, ne_eq, Vector3D.mk.injEq]
  intro h
  exact D.noConfusion h.1

/-! ## Theorems: additional real-vector algebra -/

namespace RV

@[simp] theorem zero_smul_rv (f : ℝ) : (0 : RV) * f = 0 :=
  ext_rv (by simp) (by simp) (by simp)

@[simp] theorem cross_self (a : RV) : a.cross a = 0 := by
  refine ext_rv ?_ ?_ ?_ <;> simp [cross] <;> ring

theorem cross_smul_left (a b : RV) (f : ℝ) : (a * f).cross b = a.cross b * f := by
  refine ext_rv ?_ ?_ ?_ <;> simp [cross] <;> ring

theorem cross_smul_right (a b : RV) (f : ℝ) : a.cross (b * f) = a.cross b * f := by
  refine ext_rv ?_ ?_ ?_ <;> simp [cross] <;> ring

theorem dot_smul_left (a b : RV) (f : ℝ) : (a * f).dot b = a.dot b * f := by
  simp only [dot, smul_x, smul_y, smul_z]; ring

theorem dot_smul_right (a b : RV) (f : ℝ) : a.dot (b * f) = a.dot b * f := by
  simp only [dot, smul_x, smul_y, smul_z]; ring

@[simp] theorem add_sub_cancel_left_rv (a b : RV) : (a + b) - a = b :=
  ext_rv (by simp) (by simp) (by simp)

theorem add_smul_sub_add_smul (a u : RV) (s t : ℝ) :
    (a + u * s) - (a + u * t) = u * (s - t) := by
  refine ext_rv ?_ ?_ ?_ <;>
    (simp only [sub_x, sub_y, sub_z, add_x, add_y, add_z, smul_x, smul_y, smul_z]; ring)

theorem sub_add_smul (a u : RV) (t : ℝ) : a - (a + u * t) = u * (-t) := by
  refine ext_rv ?_ ?_ ?_ <;>
    (simp only [sub_x, sub_y, sub_z, add_x, add_y, add_z, smul_x, smul_y, smul_z]; ring)

theorem sub_eq_zero_iff (a b : RV) : a - b = 0 ↔ a = b := by
  constructor
  · intro h
    have hx := congrArg RV.x h
    have hy := congrArg RV.y h
    have hz := congrArg RV.z h
    simp only [sub_x, sub_y, sub_z, zero_x, zero_y, zero_z, sub_eq_zero] at hx hy hz
    exact ext_rv hx hy hz
  · rintro rfl; exact sub_self_rv a

end RV

/-! ## Theorems: branch-level characterizations of `Intersect` on finite inputs -/

theorem swap_pair (t0 t1 : ℝ) :
    (if D.lt (D.val t1) (D.val t0) = true then (D.val t1, D.val t0)
      else (D.val t0, D.val t1)) = (D.val (min t0 t1), D.val (max t0 t1)) := by
  simp only [D.lt_val, decide_eq_true_eq]
  split
  · next h => rw [min_eq_right h.le, max_eq_left h.le]
  · next h => rw [min_eq_left (le_of_not_lt h), max_eq_right (le_of_not_lt h)]

theorem ite_nested_or {A B C Dd E : Prop} [Decidable A] [Decidable B]
    [Decidable C] [Decidable Dd] [Decidable E] (x y : Vector3D) :
    (if A then x else if ((B ∨ C) ∨ Dd) ∨ E then x else y) =
      if A ∨ B ∨ C ∨ Dd ∨ E then x else y := by
  by_cases hA : A <;> by_cases hB : B <;> by_cases hC : C <;>
    by_cases hD : Dd <;> by_cases hE : E <;> simp [hA, hB, hC, hD, hE]

theorem cross_ne_zero_right {u v : RV} (h : eps ≤ RV.norm (v.cross u)) : v ≠ 0 := by
  rintro rfl
  rw [RV.cross_zero_left, RV.norm_zero] at h
  exact absurd h (not_le.mpr eps_pos)

theorem cross_ne_zero_left {u v : RV} (h : eps ≤ RV.norm (v.cross u)) : u ≠ 0 := by
  rintro rfl
  rw [RV.cross_zero_right, RV.norm_zero] at h
  exact absurd h (not_le.mpr eps_pos)

/-- A segment whose two endpoints coincide at `p` forces the parallel branch
with `0/0 = NaN` everywhere, and the NaN-absorbing `std::max`/`std::min`
make the overlap test pass, so `P1 = p` is returned whatever `segment2` is. -/
theorem Intersect_degenerate (p q1 q2 : RV) :
    Intersect ⟨toVec p, toVec p⟩ ⟨toVec q1, toVec q2⟩ = toVec p := by
  unfold Intersect
  simp only [toVec_sub, toVec_add, toVec_cross, toVec_dot, toVec_length, toVec_smul,
    RV.sub_self_rv, RV.cross_zero_right, RV.cross_zero_left, RV.dot_zero_left,
    RV.dot_zero_right, RV.norm_zero, D.lt_val, D.fabs_val, D.div_val, abs_zero,
    decide_eq_true_eq]
  rw [if_pos eps_pos]
  simp only [if_true, D.lt_nan_right, D.lt_nan_left, Bool.false_eq_true, if_false,
    maxD_val_nan, minD_val_nan, D.lt_val, decide_eq_true_eq, toVec_smul,
    RV.smul_zero_rv, toVec_add, RV.add_zero_rv]
  norm_num

/-- Parallel branch with a strictly positive perpendicular line distance:
the sentinel is returned (sharp `d > 0` comparison, no tolerance). -/
theorem Intersect_parallel_offset (p1 p2 q1 q2 : RV)
    (hpar : RV.norm ((q2 - q1).cross (p2 - p1)) < eps)
    (hdist : 0 < RV.norm ((p2 - p1).cross (p1 - q1)) / RV.norm (p2 - p1)) :
    Intersect ⟨toVec p1, toVec p2⟩ ⟨toVec q1, toVec q2⟩ = nanVec := by
  have hnu : RV.norm (p2 - p1) ≠ 0 := by
    intro h0
    rw [h0, div_zero] at hdist
    exact lt_irrefl 0 hdist
  unfold Intersect
  simp only [toVec_sub, toVec_add, toVec_cross, toVec_dot, toVec_length, toVec_smul,
    D.lt_val, D.fabs_val, D.div_val, decide_eq_true_eq]
  rw [if_pos (by rwa [abs_of_nonneg (RV.norm_nonneg _)])]
  rw [if_neg hnu]
  rw [if_pos (by simpa using hdist)]

/-- Parallel branch with collinear lines: the code computes the clipped
projection overlap described by `specCollinear`. -/
theorem Intersect_collinear (p1 p2 q1 q2 : RV) (hu : p2 - p1 ≠ 0)
    (hpar : RV.norm ((q2 - q1).cross (p2 - p1)) < eps)
    (hcol : RV.norm ((p2 - p1).cross (p1 - q1)) = 0) :
    Intersect ⟨toVec p1, toVec p2⟩ ⟨toVec q1, toVec q2⟩ =
      specCollinear p1 p2 q1 q2 := by
  unfold Intersect specCollinear
  simp only [toVec_sub, toVec_add, toVec_cross, toVec_dot, toVec_length, toVec_smul,
    D.lt_val, D.fabs_val, D.div_val, decide_eq_true_eq]
  rw [if_pos (by rwa [abs_of_nonneg (RV.norm_nonneg _)])]
  rw [hcol]
  rw [if_neg (ne_of_gt (RV.norm_pos_of_ne_zero hu))]
  rw [zero_div]
  rw [if_neg (by simp)]
  simp only [if_neg (ne_of_gt (RV.dot_self_pos hu))]
  simp only [swap_pair, maxD_val_val, minD_val_val, D.lt_val, decide_eq_true_eq,
    toVec_smul, toVec_add, RV.dot_comm, gt_iff_lt]
  rcases lt_or_le ((p2 - p1).dot (q2 - p1) / (p2 - p1).dot (p2 - p1))
      ((p2 - p1).dot (q1 - p1) / (p2 - p1).dot (p2 - p1)) with h | h
  · rw [if_pos h]
    rw [max_eq_left h.le, min_eq_right h.le]
    simp only [maxD_val_val, minD_val_val, D.lt_val, decide_eq_true_eq, toVec_smul,
      toVec_add]
  · rw [if_neg (not_lt.mpr h)]
    rw [max_eq_right h, min_eq_left h]
    simp only [maxD_val_val, minD_val_val, D.lt_val, decide_eq_true_eq, toVec_smul,
      toVec_add]

/-- Skew branch: when the direction cross product has length at least `eps`,
the code computes exactly the spec formulas of `specSkew`. -/
theorem Intersect_skew (p1 p2 q1 q2 : RV)
    (h : eps ≤ RV.norm ((q2 - q1).cross (p2 - p1))) :
    Intersect ⟨toVec p1, toVec p2⟩ ⟨toVec q1, toVec q2⟩ = specSkew p1 p2 q1 q2 := by
  have hv : q2 - q1 ≠ 0 := cross_ne_zero_right h
  have hcross : 0 < ((q2 - q1).cross (p2 - p1)).normSq := by
    have hn : 0 < ((q2 - q1).cross (p2 - p1)).norm :=
      RV.norm_pos_of_ne_zero (fun h0 => by
        rw [h0, RV.norm_zero] at h
        exact absurd h (not_le.mpr eps_pos))
    calc (0:ℝ) < ((q2 - q1).cross (p2 - p1)).norm * ((q2 - q1).cross (p2 - p1)).norm :=
          mul_pos hn hn
      _ = _ := RV.sq_norm _
  unfold Intersect specSkew
  simp only [toVec_sub, toVec_add, toVec_cross, toVec_dot, toVec_length, toVec_smul,
    D.lt_val, D.fabs_val, D.div_val, D.mul_val, D.add_val, D.neg_val, D.sub_val,
    round_to_n_val, decide_eq_true_eq]
  rw [if_neg (by rw [abs_of_nonneg (RV.norm_nonneg _)]; exact not_lt.mpr h)]
  have hlag : (p2 - p1).dot (p2 - p1) * (q2 - q1).dot (q2 - q1) -
      (p2 - p1).dot (q2 - q1) * ((p2 - p1).dot (q2 - q1)) =
      ((q2 - q1).cross (p2 - p1)).normSq := by
    rw [RV.dot_comm (p2 - p1) (q2 - q1)]
    exact RV.lagrange _ _
  have hden : (p2 - p1).dot (p2 - p1) * (q2 - q1).dot (q2 - q1) -
      (p2 - p1).dot (q2 - q1) * ((p2 - p1).dot (q2 - q1)) ≠ 0 := by
    rw [hlag]; exact ne_of_gt hcross
  simp only [if_neg hden]
  simp only [round_to_n_val, D.mul_val, D.add_val, if_neg (ne_of_gt (RV.dot_self_pos hv)),
    D.div_val, toVec_smul, toVec_add, toVec_sub, toVec_length, D.lt_val, D.sub_val,
    Bool.or_eq_true, decide_eq_true_eq]
  rw [ite_nested_or]
  simp only [RV.dot_comm]

/-! ## Claim theorems -/

/-- C1: in the non-parallel branch (`length(cross(v,u)) >= eps`), `Intersect`
computes `t = round6((-d*c + b*e)/(a*c - b*b))` and `s = (e + b*t)/c` and
returns the all-NaN sentinel if `length(Pt - Qs) > eps` or `t` or `s` falls
outside `[0,1]`, and otherwise `Pt = P1 + u*t`, exactly as `specSkew`
transcribes from the specification. -/
theorem claim_C1 (p1 p2 q1 q2 : RV)
    (h : eps ≤ RV.norm ((q2 - q1).cross (p2 - p1))) :
    Intersect ⟨toVec p1, toVec p2⟩ ⟨toVec q1, toVec q2⟩ = specSkew p1 p2 q1 q2 :=
  Intersect_skew p1 p2 q1 q2 h

/-- Witness for C1 at the perpendicular-crossing test case
`{(1,0,0),(-1,0,0)}` x `{(0,1,0),(0,-1,0)}`. -/
theorem claim_C1_witness :
    eps ≤ RV.norm (((⟨0,-1,0⟩ : RV) - ⟨0,1,0⟩).cross ((⟨-1,0,0⟩ : RV) - ⟨1,0,0⟩)) ∧
    Intersect ⟨toVec ⟨1,0,0⟩, toVec ⟨-1,0,0⟩⟩ ⟨toVec ⟨0,1,0⟩, toVec ⟨0,-1,0⟩⟩ =
      specSkew ⟨1,0,0⟩ ⟨-1,0,0⟩ ⟨0,1,0⟩ ⟨0,-1,0⟩ := by
  have hnorm : RV.norm (((⟨0,-1,0⟩ : RV) - ⟨0,1,0⟩).cross ((⟨-1,0,0⟩ : RV) - ⟨1,0,0⟩)) = 4 := by
    have h16 : (((⟨0,-1,0⟩ : RV) - ⟨0,1,0⟩).cross ((⟨-1,0,0⟩ : RV) - ⟨1,0,0⟩)).normSq = 16 := by
      simp only [RV.cross, RV.normSq, RV.sub_x, RV.sub_y, RV.sub_z]
      norm_num
    rw [RV.norm, h16, show (16:ℝ) = 4 ^ 2 by norm_num,
      Real.sqrt_sq (by norm_num : (0:ℝ) ≤ 4)]
  have h : eps ≤ RV.norm (((⟨0,-1,0⟩ : RV) - ⟨0,1,0⟩).cross ((⟨-1,0,0⟩ : RV) - ⟨1,0,0⟩)) := by
    rw [hnorm]; norm_num [eps]
  exact ⟨h, claim_C1 _ _ _ _ h⟩

/-- C2: in the collinear case (parallel branch, perpendicular distance not
greater than 0), `Intersect` projects both endpoints of segment2 onto
segment1, orders and clips the parameters, returns the sentinel iff the
clipped overlap is empty, and otherwise the point at the first overlap
parameter along segment1, exactly as `specCollinear` transcribes from the
specification. -/
theorem claim_C2 (p1 p2 q1 q2 : RV) (hu : p2 - p1 ≠ 0)
    (hpar : RV.norm ((q2 - q1).cross (p2 - p1)) < eps)
    (hdist : RV.norm ((p2 - p1).cross (p1 - q1)) / RV.norm (p2 - p1) ≤ 0) :
    Intersect ⟨toVec p1, toVec p2⟩ ⟨toVec q1, toVec q2⟩ =
      specCollinear p1 p2 q1 q2 := by
  have hpos := RV.norm_pos_of_ne_zero hu
  have hcol : RV.norm ((p2 - p1).cross (p1 - q1)) = 0 := by
    by_contra hne
    have h1 : 0 < RV.norm ((p2 - p1).cross (p1 - q1)) :=
      lt_of_le_of_ne (RV.norm_nonneg _) (Ne.symm hne)
    have h2 : 0 < RV.norm ((p2 - p1).cross (p1 - q1)) / RV.norm (p2 - p1) :=
      div_pos h1 hpos
    linarith
  exact Intersect_collinear p1 p2 q1 q2 hu hpar hcol

/-- Witness for C2 at the collinear disjoint test case
`{(0,0,0),(1,1,1)}` x `{(2,2,2),(3,3,3)}`. -/
theorem claim_C2_witness :
    ((⟨1,1,1⟩ : RV) - ⟨0,0,0⟩) ≠ 0 ∧
    RV.norm (((⟨3,3,3⟩ : RV) - ⟨2,2,2⟩).cross ((⟨1,1,1⟩ : RV) - ⟨0,0,0⟩)) < eps ∧
    RV.norm (((⟨1,1,1⟩ : RV) - ⟨0,0,0⟩).cross ((⟨0,0,0⟩ : RV) - ⟨2,2,2⟩)) /
      RV.norm ((⟨1,1,1⟩ : RV) - ⟨0,0,0⟩) ≤ 0 ∧
    Intersect ⟨toVec ⟨0,0,0⟩, toVec ⟨1,1,1⟩⟩ ⟨toVec ⟨2,2,2⟩, toVec ⟨3,3,3⟩⟩ =
      specCollinear ⟨0,0,0⟩ ⟨1,1,1⟩ ⟨2,2,2⟩ ⟨3,3,3⟩ := by
  have hu : ((⟨1,1,1⟩ : RV) - ⟨0,0,0⟩) ≠ 0 := by
    intro h
    have hx := congrArg RV.x h
    simp only [RV.sub_x, RV.zero_x] at hx
    norm_num at hx
  have hpar : RV.norm (((⟨3,3,3⟩ : RV) - ⟨2,2,2⟩).cross ((⟨1,1,1⟩ : RV) - ⟨0,0,0⟩)) < eps := by
    have h0 : (((⟨3,3,3⟩ : RV) - ⟨2,2,2⟩).cross ((⟨1,1,1⟩ : RV) - ⟨0,0,0⟩)).normSq = 0 := by
      simp only [RV.cross, RV.normSq, RV.sub_x, RV.sub_y, RV.sub_z]
      norm_num
    rw [RV.norm, h0, Real.sqrt_zero]
    exact eps_pos
  have hdist : RV.norm (((⟨1,1,1⟩ : RV) - ⟨0,0,0⟩).cross ((⟨0,0,0⟩ : RV) - ⟨2,2,2⟩)) /
      RV.norm ((⟨1,1,1⟩ : RV) - ⟨0,0,0⟩) ≤ 0 := by
    have h0 : (((⟨1,1,1⟩ : RV) - ⟨0,0,0⟩).cross ((⟨0,0,0⟩ : RV) - ⟨2,2,2⟩)).normSq = 0 := by
      simp only [RV.cross, RV.normSq, RV.sub_x, RV.sub_y, RV.sub_z]
      norm_num
    rw [RV.norm, h0, Real.sqrt_zero, zero_div]
  exact ⟨hu, hpar, hdist, claim_C2 _ _ _ _ hu hpar hdist⟩

/-- C3: in the parallel branch, the perpendicular line distance is computed
as `length(cross(u,w0)) / length(u)` and any strictly positive value makes
`Intersect` return the all-NaN sentinel; the comparison `d > 0` is sharp,
with no epsilon tolerance. -/
theorem claim_C3 (p1 p2 q1 q2 : RV)
    (hpar : RV.norm ((q2 - q1).cross (p2 - p1)) < eps)
    (hdist : 0 < RV.norm ((p2 - p1).cross (p1 - q1)) / RV.norm (p2 - p1)) :
    Intersect ⟨toVec p1, toVec p2⟩ ⟨toVec q1, toVec q2⟩ = nanVec :=
  Intersect_parallel_offset p1 p2 q1 q2 hpar hdist

/-- Witness for C3 at the offset-parallel test case
`{(0,0,0),(1,0,0)}` x `{(0,1,0),(1,1,0)}`. -/
theorem claim_C3_witness :
    RV.norm (((⟨1,1,0⟩ : RV) - ⟨0,1,0⟩).cross ((⟨1,0,0⟩ : RV) - ⟨0,0,0⟩)) < eps ∧
    0 < RV.norm (((⟨1,0,0⟩ : RV) - ⟨0,0,0⟩).cross ((⟨0,0,0⟩ : RV) - ⟨0,1,0⟩)) /
      RV.norm ((⟨1,0,0⟩ : RV) - ⟨0,0,0⟩) ∧
    Intersect ⟨toVec ⟨0,0,0⟩, toVec ⟨1,0,0⟩⟩ ⟨toVec ⟨0,1,0⟩, toVec ⟨1,1,0⟩⟩ = nanVec := by
  have hpar : RV.norm (((⟨1,1,0⟩ : RV) - ⟨0,1,0⟩).cross ((⟨1,0,0⟩ : RV) - ⟨0,0,0⟩)) < eps := by
    have h0 : (((⟨1,1,0⟩ : RV) - ⟨0,1,0⟩).cross ((⟨1,0,0⟩ : RV) - ⟨0,0,0⟩)).normSq = 0 := by
      simp only [RV.cross, RV.normSq, RV.sub_x, RV.sub_y, RV.sub_z]
      norm_num
    rw [RV.norm, h0, Real.sqrt_zero]
    exact eps_pos
  have hdist : 0 < RV.norm (((⟨1,0,0⟩ : RV) - ⟨0,0,0⟩).cross ((⟨0,0,0⟩ : RV) - ⟨0,1,0⟩)) /
      RV.norm ((⟨1,0,0⟩ : RV) - ⟨0,0,0⟩) := by
    have hnum : (((⟨1,0,0⟩ : RV) - ⟨0,0,0⟩).cross ((⟨0,0,0⟩ : RV) - ⟨0,1,0⟩)).normSq = 1 := by
      simp only [RV.cross, RV.normSq, RV.sub_x, RV.sub_y, RV.sub_z]
      norm_num
    have hden : ((⟨1,0,0⟩ : RV) - ⟨0,0,0⟩).normSq = 1 := by
      simp only [RV.normSq, RV.sub_x, RV.sub_y, RV.sub_z]
      norm_num
    rw [RV.norm, RV.norm, hnum, hden, Real.sqrt_one]
    norm_num
  exact ⟨hpar, hdist, claim_C3 _ _ _ _ hpar hdist⟩

/-- C4: the symmetry property fails on the code.  For the degenerate
segment `A = {(5,5,5),(5,5,5)}` and the segment `B = {(0,0,0),(1,0,0)}`,
`Intersect(A, B)` returns the non-NaN point `(5,5,5)` while
`Intersect(B, A)` returns the all-NaN sentinel, so the two call orders do
not agree on intersection existence. -/
theorem claim_C4 :
    Vector3D.is_nan (Intersect ⟨toVec ⟨5,5,5⟩, toVec ⟨5,5,5⟩⟩
      ⟨toVec ⟨0,0,0⟩, toVec ⟨1,0,0⟩⟩) = false ∧
    Vector3D.is_nan (Intersect ⟨toVec ⟨0,0,0⟩, toVec ⟨1,0,0⟩⟩
      ⟨toVec ⟨5,5,5⟩, toVec ⟨5,5,5⟩⟩) = true := by
  constructor
  · rw [Intersect_degenerate]
    exact toVec_is_nan _
  · rw [Intersect_parallel_offset]
    · rfl
    · have h0 : (((⟨5,5,5⟩ : RV) - ⟨5,5,5⟩).cross ((⟨1,0,0⟩ : RV) - ⟨0,0,0⟩)).normSq = 0 := by
        simp only [RV.cross, RV.normSq, RV.sub_x, RV.sub_y, RV.sub_z]
        norm_num
      rw [RV.norm, h0, Real.sqrt_zero]
      exact eps_pos
    · have hnum : (((⟨1,0,0⟩ : RV) - ⟨0,0,0⟩).cross ((⟨0,0,0⟩ : RV) - ⟨5,5,5⟩)).normSq = 50 := by
        simp only [RV.cross, RV.normSq, RV.sub_x, RV.sub_y, RV.sub_z]
        norm_num
      have hden : ((⟨1,0,0⟩ : RV) - ⟨0,0,0⟩).normSq = 1 := by
        simp only [RV.normSq, RV.sub_x, RV.sub_y, RV.sub_z]
        norm_num
      rw [RV.norm, RV.norm, hnum, hden, Real.sqrt_one, div_one]
      exact Real.sqrt_pos.mpr (by norm_num)

/-- C5: a degenerate segment1 whose endpoints coincide at a finite point `p`
makes `Intersect` return `p` for every finite segment2: the zero direction
forces the parallel branch, the `0/0 = NaN` distance fails `d > 0`, and the
NaN-absorbing clipping `max(0,NaN) = 0`, `min(1,NaN) = 1` makes the overlap
test pass, so `P1 = p` is returned. -/
theorem claim_C5 (p q1 q2 : RV) :
    Intersect ⟨toVec p, toVec p⟩ ⟨toVec q1, toVec q2⟩ = toVec p ∧
    Intersect ⟨toVec p, toVec p⟩ ⟨toVec q1, toVec q2⟩ ≠ nanVec := by
  refine ⟨Intersect_degenerate p q1 q2, ?_⟩
  rw [Intersect_degenerate]
  exact toVec_ne_nanVec p

/-- C6: `operator==` on finite vectors is true iff each coordinate
difference `other - this` is at most `eps`, with no absolute value; it is
therefore asymmetric: `(100,0,0) == (0,0,0)` holds while
`(0,0,0) == (100,0,0)` does not. -/
theorem claim_C6 :
    (∀ a b : RV, (Vector3D.beq (toVec a) (toVec b) = true ↔
      (b.x - a.x ≤ eps ∧ b.y - a.y ≤ eps ∧ b.z - a.z ≤ eps))) ∧
    Vector3D.beq (toVec ⟨100,0,0⟩) (toVec ⟨0,0,0⟩) = true ∧
    Vector3D.beq (toVec ⟨0,0,0⟩) (toVec ⟨100,0,0⟩) = false := by
  refine ⟨?_, ?_, ?_⟩
  · intro a b
    simp [Vector3D.beq, toVec, and_assoc]
  · simp [Vector3D.beq, toVec]
    norm_num [eps]
  · simp [Vector3D.beq, toVec]
    norm_num [eps]

/-- C7 counterexample: the collinear segments `{(0,0,0),(2,2,2)}` and
`{(1,1,1),(2,2,2)}` share exactly one endpoint, `(2,2,2)`, yet `Intersect`
returns `(1,1,1)` (the start of their overlap along segment1), not the
shared endpoint. -/
theorem claim_C7_counterexample :
    Intersect ⟨toVec ⟨0,0,0⟩, toVec ⟨2,2,2⟩⟩ ⟨toVec ⟨1,1,1⟩, toVec ⟨2,2,2⟩⟩ =
      toVec ⟨1,1,1⟩ ∧
    (toVec ⟨1,1,1⟩ : Vector3D) ≠ toVec ⟨2,2,2⟩ := by
  constructor
  · have hu : ((⟨2,2,2⟩ : RV) - ⟨0,0,0⟩) ≠ 0 := by
      intro h
      have hx := congrArg RV.x h
      simp only [RV.sub_x, RV.zero_x] at hx
      norm_num at hx
    have hpar : RV.norm (((⟨2,2,2⟩ : RV) - ⟨1,1,1⟩).cross ((⟨2,2,2⟩ : RV) - ⟨0,0,0⟩)) < eps := by
      have h0 : (((⟨2,2,2⟩ : RV) - ⟨1,1,1⟩).cross ((⟨2,2,2⟩ : RV) - ⟨0,0,0⟩)).normSq = 0 := by
        simp only [RV.cross, RV.normSq, RV.sub_x, RV.sub_y, RV.sub_z]
        norm_num
      rw [RV.norm, h0, Real.sqrt_zero]
      exact eps_pos
    have hcol : RV.norm (((⟨2,2,2⟩ : RV) - ⟨0,0,0⟩).cross ((⟨0,0,0⟩ : RV) - ⟨1,1,1⟩)) = 0 := by
      have h0 : (((⟨2,2,2⟩ : RV) - ⟨0,0,0⟩).cross ((⟨0,0,0⟩ : RV) - ⟨1,1,1⟩)).normSq = 0 := by
        simp only [RV.cross, RV.normSq, RV.sub_x, RV.sub_y, RV.sub_z]
        norm_num
      rw [RV.norm, h0, Real.sqrt_zero]
    rw [Intersect_collinear _ _ _ _ hu hpar hcol]
    simp only [specCollinear, RV.dot, RV.sub_x, RV.sub_y, RV.sub_z]
    norm_num
    congr 1
    exact RV.ext_rv (by norm_num) (by norm_num) (by norm_num)
  · intro h
    have hx := congrArg RV.x (toVec_inj h)
    norm_num at hx

/-- C7 (amended): for two collinear segments whose point sets meet in
exactly one point (expressed parametrically: segment2 runs from parameter
`q1` to `q2` along segment1's direction `u`, and the clipped overlap
`[max 0 (min q1 q2), min 1 (max q1 q2)]` is a single parameter), `Intersect`
returns that single common point.  In particular this covers two collinear
segments touching at a shared endpoint and otherwise disjoint, as in
`{(0,0,0),(1,1,1)}` x `{(1,1,1),(2,2,2)}` -> `(1,1,1)` (see the witness). -/
theorem claim_C7 (p1 u : RV) (q1 q2 : ℝ) (hu : u ≠ 0)
    (htouch : max 0 (min q1 q2) = min 1 (max q1 q2)) :
    Intersect ⟨toVec p1, toVec (p1 + u)⟩
        ⟨toVec (p1 + u * q1), toVec (p1 + u * q2)⟩ =
      toVec (p1 + u * max 0 (min q1 q2)) ∧
    Intersect ⟨toVec p1, toVec (p1 + u)⟩
        ⟨toVec (p1 + u * q1), toVec (p1 + u * q2)⟩ ≠ nanVec := by
  have hne : u.dot u ≠ 0 := ne_of_gt (RV.dot_self_pos hu)
  have hu' : (p1 + u) - p1 ≠ 0 := by
    rw [RV.add_sub_cancel_left_rv]; exact hu
  have hpar : RV.norm (((p1 + u * q2) - (p1 + u * q1)).cross ((p1 + u) - p1)) < eps := by
    rw [RV.add_smul_sub_add_smul, RV.add_sub_cancel_left_rv, RV.cross_smul_left,
      RV.cross_self, RV.zero_smul_rv, RV.norm_zero]
    exact eps_pos
  have hcol : RV.norm (((p1 + u) - p1).cross (p1 - (p1 + u * q1))) = 0 := by
    rw [RV.add_sub_cancel_left_rv, RV.sub_add_smul, RV.cross_smul_right,
      RV.cross_self, RV.zero_smul_rv, RV.norm_zero]
  have hmain : Intersect ⟨toVec p1, toVec (p1 + u)⟩
      ⟨toVec (p1 + u * q1), toVec (p1 + u * q2)⟩ =
      toVec (p1 + u * max 0 (min q1 q2)) := by
    rw [Intersect_collinear _ _ _ _ hu' hpar hcol]
    have hdc : ∀ r : ℝ, u.dot u * r / u.dot u = r := fun r =>
      mul_div_cancel_left₀ r hne
    simp only [specCollinear, RV.add_sub_cancel_left_rv, RV.dot_smul_left, hdc]
    rw [if_neg (by rw [htouch]; exact lt_irrefl _)]
  refine ⟨hmain, ?_⟩
  rw [hmain]
  exact toVec_ne_nanVec _

/-- Witness for C7 at `{(0,0,0),(1,1,1)}` x `{(1,1,1),(2,2,2)}`, two
collinear segments touching at the shared endpoint `(1,1,1)` only:
parametrically `p1 = (0,0,0)`, `u = (1,1,1)`, `q1 = 1`, `q2 = 2`, and the
returned point `p1 + u * 1 = (1,1,1)` is the shared endpoint. -/
theorem claim_C7_witness :
    (⟨1,1,1⟩ : RV) ≠ 0 ∧
    max 0 (min (1:ℝ) 2) = min 1 (max (1:ℝ) 2) ∧
    Intersect ⟨toVec ⟨0,0,0⟩, toVec ((⟨0,0,0⟩ : RV) + ⟨1,1,1⟩)⟩
        ⟨toVec ((⟨0,0,0⟩ : RV) + (⟨1,1,1⟩ : RV) * (1:ℝ)),
          toVec ((⟨0,0,0⟩ : RV) + (⟨1,1,1⟩ : RV) * (2:ℝ))⟩ =
      toVec ((⟨0,0,0⟩ : RV) + (⟨1,1,1⟩ : RV) * max 0 (min (1:ℝ) 2)) := by
  have hu : (⟨1,1,1⟩ : RV) ≠ 0 := by
    intro h
    have hx := congrArg RV.x h
    simp only [RV.zero_x] at hx
    norm_num at hx
  have htouch : max 0 (min (1:ℝ) 2) = min 1 (max (1:ℝ) 2) := by norm_num
  exact ⟨hu, htouch, (claim_C7 ⟨0,0,0⟩ ⟨1,1,1⟩ 1 2 hu htouch).1⟩

/-- C8: for any non-degenerate segment S, `Intersect(S, S)` goes through
the collinear-overlap branch and returns `P1`, a non-NaN point on S (the
point at parameter 0), never the sentinel. -/
theorem claim_C8 (p1 p2 : RV) (h : p1 ≠ p2) :
    Intersect ⟨toVec p1, toVec p2⟩ ⟨toVec p1, toVec p2⟩ = toVec p1 ∧
    Intersect ⟨toVec p1, toVec p2⟩ ⟨toVec p1, toVec p2⟩ ≠ nanVec ∧
    ∃ t : ℝ, 0 ≤ t ∧ t ≤ 1 ∧ toVec p1 = toVec (p1 + (p2 - p1) * t) := by
  have hu : p2 - p1 ≠ 0 := by
    rw [Ne, RV.sub_eq_zero_iff]
    exact fun hh => h hh.symm
  have hpar : RV.norm ((p2 - p1).cross (p2 - p1)) < eps := by
    rw [RV.cross_self, RV.norm_zero]
    exact eps_pos
  have hcol : RV.norm ((p2 - p1).cross (p1 - p1)) = 0 := by
    rw [RV.sub_self_rv, RV.cross_zero_right, RV.norm_zero]
  have hmain : Intersect ⟨toVec p1, toVec p2⟩ ⟨toVec p1, toVec p2⟩ = toVec p1 := by
    rw [Intersect_collinear _ _ _ _ hu hpar hcol]
    simp only [specCollinear, RV.sub_self_rv, RV.dot_zero_left, zero_div,
      div_self (ne_of_gt (RV.dot_self_pos hu))]
    norm_num
  refine ⟨hmain, ?_, 0, le_refl 0, by norm_num, ?_⟩
  · rw [hmain]; exact toVec_ne_nanVec p1
  · rw [RV.smul_zero_rv, RV.add_zero_rv]

/-- Witness for C8 at the non-degenerate segment `{(0,0,0),(1,1,1)}`. -/
theorem claim_C8_witness :
    (⟨0,0,0⟩ : RV) ≠ ⟨1,1,1⟩ ∧
    Intersect ⟨toVec ⟨0,0,0⟩, toVec ⟨1,1,1⟩⟩ ⟨toVec ⟨0,0,0⟩, toVec ⟨1,1,1⟩⟩ =
      toVec ⟨0,0,0⟩ := by
  have h : (⟨0,0,0⟩ : RV) ≠ ⟨1,1,1⟩ := by
    intro hh
    have hx := congrArg RV.x hh
    norm_num at hx
  exact ⟨h, (claim_C8 ⟨0,0,0⟩ ⟨1,1,1⟩ h).1⟩

/-- C9: on finite inputs `Intersect` is total (the embedding is a total
function) and its result is either exactly the all-NaN sentinel or an
entirely finite vector; no partial-NaN value is ever produced, so the
sentinel is the only failure signal. -/
theorem claim_C9 (p1 p2 q1 q2 : RV) :
    Intersect ⟨toVec p1, toVec p2⟩ ⟨toVec q1, toVec q2⟩ = nanVec ∨
    ∃ r : RV, Intersect ⟨toVec p1, toVec p2⟩ ⟨toVec q1, toVec q2⟩ = toVec r := by
  by_cases hd : p2 - p1 = 0
  · right
    have hp : p2 = p1 := (RV.sub_eq_zero_iff _ _).mp hd
    rw [hp]
    exact ⟨p1, Intersect_degenerate p1 q1 q2⟩
  · by_cases hs : eps ≤ RV.norm ((q2 - q1).cross (p2 - p1))
    · rw [Intersect_skew _ _ _ _ hs]
      simp only [specSkew]
      split
      · exact Or.inl rfl
      · exact Or.inr ⟨_, rfl⟩
    · have hpar : RV.norm ((q2 - q1).cross (p2 - p1)) < eps := not_le.mp hs
      by_cases hc : RV.norm ((p2 - p1).cross (p1 - q1)) = 0
      · rw [Intersect_collinear _ _ _ _ hd hpar hc]
        simp only [specCollinear]
        split
        · exact Or.inl rfl
        · exact Or.inr ⟨_, rfl⟩
      · have hdist : 0 < RV.norm ((p2 - p1).cross (p1 - q1)) / RV.norm (p2 - p1) :=
          div_pos (lt_of_le_of_ne (RV.norm_nonneg _) (Ne.symm hc))
            (RV.norm_pos_of_ne_zero hd)
        rw [Intersect_parallel_offset _ _ _ _ hpar hdist]
        exact Or.inl rfl

/-- C10: on finite inputs, whenever `Intersect` does not return the all-NaN
sentinel, the returned point lies on segment1: it is `P1 + (P2-P1)*t` for
some `t` in `[0,1]`. -/
theorem claim_C10 (p1 p2 q1 q2 : RV)
    (h : Intersect ⟨toVec p1, toVec p2⟩ ⟨toVec q1, toVec q2⟩ ≠ nanVec) :
    ∃ t : ℝ, 0 ≤ t ∧ t ≤ 1 ∧
      Intersect ⟨toVec p1, toVec p2⟩ ⟨toVec q1, toVec q2⟩ =
        toVec (p1 + (p2 - p1) * t) := by
  by_cases hd : p2 - p1 = 0
  · have hp : p2 = p1 := (RV.sub_eq_zero_iff _ _).mp hd
    subst hp
    refine ⟨0, le_refl 0, by norm_num, ?_⟩
    rw [Intersect_degenerate, RV.sub_self_rv, RV.zero_smul_rv, RV.add_zero_rv]
  · by_cases hs : eps ≤ RV.norm ((q2 - q1).cross (p2 - p1))
    · rw [Intersect_skew _ _ _ _ hs] at h ⊢
      simp only [specSkew] at h ⊢
      split at h
      · exact absurd rfl h
      · next hC =>
        push_neg at hC
        rw [if_neg ?_]
        · exact ⟨_, hC.2.2.1, hC.2.1, rfl⟩
        · push_neg
          exact hC
    · have hpar : RV.norm ((q2 - q1).cross (p2 - p1)) < eps := not_le.mp hs
      by_cases hc : RV.norm ((p2 - p1).cross (p1 - q1)) = 0
      · rw [Intersect_collinear _ _ _ _ hd hpar hc] at h ⊢
        simp only [specCollinear] at h ⊢
        split at h
        · exact absurd rfl h
        · next hC =>
          rw [if_neg hC]
          exact ⟨_, le_max_left _ _,
            le_trans (not_lt.mp hC) (min_le_left _ _), rfl⟩
      · have hdist : 0 < RV.norm ((p2 - p1).cross (p1 - q1)) / RV.norm (p2 - p1) :=
          div_pos (lt_of_le_of_ne (RV.norm_nonneg _) (Ne.symm hc))
            (RV.norm_pos_of_ne_zero hd)
        rw [Intersect_parallel_offset _ _ _ _ hpar hdist] at h
        exact absurd rfl h

/-- Witness for C10 at the degenerate-segment input
`{(5,5,5),(5,5,5)}` x `{(0,0,0),(1,0,0)}`, where the result `(5,5,5)` is
not the sentinel. -/
theorem claim_C10_witness :
    Intersect ⟨toVec ⟨5,5,5⟩, toVec ⟨5,5,5⟩⟩ ⟨toVec ⟨0,0,0⟩, toVec ⟨1,0,0⟩⟩ ≠ nanVec ∧
    ∃ t : ℝ, 0 ≤ t ∧ t ≤ 1 ∧
      Intersect ⟨toVec ⟨5,5,5⟩, toVec ⟨5,5,5⟩⟩ ⟨toVec ⟨0,0,0⟩, toVec ⟨1,0,0⟩⟩ =
        toVec ((⟨5,5,5⟩ : RV) + ((⟨5,5,5⟩ : RV) - ⟨5,5,5⟩) * t) := by
  have h : Intersect ⟨toVec ⟨5,5,5⟩, toVec ⟨5,5,5⟩⟩
      ⟨toVec ⟨0,0,0⟩, toVec ⟨1,0,0⟩⟩ ≠ nanVec := by
    rw [Intersect_degenerate]
    exact toVec_ne_nanVec _
  exact ⟨h, claim_C10 _ _ _ _ h⟩
